import Mathlib

/-!
Shallow embedding of `src/modules/ng-config/src/config.service.ts`
(the `ConfigService` class of the ng-config package) together with the
free function `mapOptionValues` it uses for option binding.

Modelling conventions:
* JavaScript runtime values that can appear inside a configuration
  section or an options object are embedded as the inductive `JsValue`
  (strings, numbers, booleans, `null`, `undefined`, plain objects).
  JavaScript numbers are embedded as `Int`: every value exercised by the
  code paths under verification is an integer, and overflow/NaN-producing
  float arithmetic does not occur in the source (`Number(x) || 0` is the
  only numeric conversion and its NaN outcome is represented by `Option`).
* A JavaScript object is a finite key/value association; it is embedded
  as `List (String × JsValue)` with first-match lookup (JS object keys
  are unique, which first-match lookup generalises conservatively).
* Reference identity of mutable option objects (needed because
  `mapOptionValues` mutates its argument in place and `ConfigService.map`
  compares references with `===`) is embedded by tagging each object with
  a numeric identity (`ObjRef`); in-place mutation keeps the tag.
* Asynchronous observables are embedded by explicit state passing: a load
  cycle is a function of the service state and an oracle giving each
  provider's fetch outcome for the cycle.
-/

namespace NgConfig

/-- A JavaScript runtime value as it can occur in a `ConfigSection` or an
`OptionsLike` object: string, number, boolean, `null`, `undefined`, or a
plain object (a finite list of key/value fields). -/
inductive JsValue : Type where
  | vStr (s : String)
  | vNum (n : Int)
  | vBool (b : Bool)
  | vNull
  | vUndefined
  | vObj (fields : List (String × JsValue))

/-- A configuration section: a JavaScript object, embedded as an
association list of fields. -/
abbrev Section := List (String × JsValue)

/-- First-match association-list lookup: the embedding of JavaScript
property read `o[key]` restricted to own properties (keys of a JS object
are unique, so first match is the match). -/
def alookup {α : Type} : List (String × α) → String → Option α
  | [], _ => none
  | (k, v) :: rest, key => if k = key then some v else alookup rest key

/-- Association-list update `o[key] = v` / `Map.set`: replaces the value
of an existing key in place, otherwise appends the new binding. -/
def aset {α : Type} : List (String × α) → String → α → List (String × α)
  | [], key, v => [(key, v)]
  | (k, w) :: rest, key, v =>
    if k = key then (key, v) :: rest else (k, w) :: aset rest key v

/-- Association-list removal, the embedding of `Map.delete(key)`. -/
def aerase {α : Type} (l : List (String × α)) (key : String) : List (String × α) :=
  l.filter (fun p => p.1 ≠ key)

/-- JavaScript truthiness of a value (`Boolean(v)`); `""`, `0`, `false`,
`null` and `undefined` are falsy, every object is truthy. -/
def truthy : JsValue → Bool
  | .vStr s => !(s.data.isEmpty)
  | .vNum n => n != 0
  | .vBool b => b
  | .vNull => false
  | .vUndefined => false
  | .vObj _ => true

/-- Loose null test `v == null`, true exactly for `null` and `undefined`. -/
def isNullish : JsValue → Bool
  | .vNull => true
  | .vUndefined => true
  | _ => false

/-- `typeof v === 'object'` restricted to actual objects; the `null` case
(for which `typeof` also answers `'object'`) is always screened out first
by `isNullish` in the source. -/
def isJsObject : JsValue → Bool
  | .vObj _ => true
  | _ => false

/-- Strict equality `a === b`. Primitives compare by value; two object
values compare by reference, and since the defaults object and the
snapshot hold distinct (non-aliased) objects in every reachable state,
object-to-object strict equality is embedded as `false`. -/
def jsStrictEq : JsValue → JsValue → Bool
  | .vStr a, .vStr b => a == b
  | .vNum a, .vNum b => a == b
  | .vBool a, .vBool b => a == b
  | .vNull, .vNull => true
  | .vUndefined, .vUndefined => true
  | _, _ => false

/-- Decimal digits of a natural number, most significant first; the
`fuel` argument only drives structural recursion and is always large
enough (`n + 1` calls suffice since `n / 10 < n` for `n ≥ 10`). -/
def natDigits : Nat → Nat → List Char
  | 0, _ => []
  | fuel + 1, n =>
    if n < 10 then [Char.ofNat (48 + n)]
    else natDigits fuel (n / 10) ++ [Char.ofNat (48 + n % 10)]

/-- Canonical decimal string of a natural number (`String(n)` in JS). -/
def natToString (n : Nat) : String := String.mk (natDigits (n + 1) n)

/-- Canonical decimal string of an integer: the embedding of JavaScript
`Number.prototype.toString` on integral numbers. -/
def intToString : Int → String
  | .ofNat n => natToString n
  | .negSucc n => String.mk ('-' :: (natToString (n + 1)).data)

/-- Value of a nonempty all-digit character list, `none` otherwise. -/
def digitsToNat : List Char → Option Nat
  | [] => none
  | ds =>
    if ds.all Char.isDigit then
      some (ds.foldl (fun acc c => acc * 10 + (c.toNat - 48)) 0)
    else none

/-- JavaScript whitespace as far as `Number(string)` trimming is
concerned (the forms exercised by configuration strings). -/
def isJsWs (c : Char) : Bool := c = ' ' || c = '\t' || c = '\n' || c = '\r'

/-- Trim leading and trailing whitespace from a character list. -/
def trimChars (cs : List Char) : List Char :=
  ((cs.dropWhile isJsWs).reverse.dropWhile isJsWs).reverse

/-- The numeric conversion `Number(string)`: `none` embeds NaN. Scope of
the integer model: the empty/whitespace string converts to `0`, an
optionally signed decimal integer converts to its value, everything else
(including fractional and exponent forms, which never reach the coercion
paths under verification) is NaN. -/
def jsStringToNumber (s : String) : Option Int :=
  match trimChars s.data with
  | [] => some 0
  | '-' :: ds => (digitsToNat ds).map (fun n => -(n : Int))
  | '+' :: ds => (digitsToNat ds).map (fun n => (n : Int))
  | ds => (digitsToNat ds).map (fun n => (n : Int))

/-- The expression `Number(configValue) || 0` from the numeric branch of
`mapOptionValues`: NaN (and `0` itself, and falsy inputs) collapse to
`0`. `Number` of a plain object is NaN (exotic `valueOf` overrides cannot
occur on configuration data). -/
def jsNumberOr0 : JsValue → Int
  | .vNum n => n
  | .vStr s => (jsStringToNumber s).getD 0
  | .vBool b => if b then 1 else 0
  | .vNull => 0
  | .vUndefined => 0
  | .vObj _ => 0

/-- ASCII lower-casing of a string, the embedding of
`String.prototype.toLowerCase` on the identifiers the service handles. -/
def strToLower (s : String) : String := String.mk (s.data.map Char.toLower)

/-- Split a character list at every `.` or `:`, keeping empty pieces;
the embedding of `key.split(/\.|:/)` in `ConfigService.getValue`. -/
def splitPathAux : List Char → List Char → List String
  | [], acc => [String.mk acc.reverse]
  | c :: rest, acc =>
    if c = '.' || c = ':' then String.mk acc.reverse :: splitPathAux rest []
    else splitPathAux rest (c :: acc)

/-- `key.split(/\.|:/)` on a string. -/
def splitPath (key : String) : List String := splitPathAux key.data []

/-- JavaScript property read `v[key]`, which throws a `TypeError` when
`v` is `null` or `undefined` (embedded as `Except.error`). On an object
it reads the own property (absent keys give `undefined`); on a string it
exposes `length` and the canonical numeric indices (method properties of
primitives are outside the configuration value space and read as
`undefined`); on numbers and booleans every key reads as `undefined`. -/
def propAccess : JsValue → String → Except Unit JsValue
  | .vNull, _ => .error ()
  | .vUndefined, _ => .error ()
  | .vObj fields, key =>
    .ok (match alookup fields key with
         | some v => v
         | none => .vUndefined)
  | .vStr s, key =>
    .ok (if key = "length" then .vNum s.data.length
         else match digitsToNat key.data with
              | some i =>
                if natToString i = key then
                  match s.data.get? i with
                  | some c => .vStr (String.mk [c])
                  | none => .vUndefined
                else .vUndefined
              | none => .vUndefined)
  | .vNum _, _ => .ok .vUndefined
  | .vBool _, _ => .ok .vUndefined

/-- The reduction `keyArray.reduce((acc, current) => acc && acc[current], cfg)`
from `ConfigService.getValue`: a falsy accumulator short-circuits and is
carried through unchanged, a truthy accumulator is indexed by the next
segment. -/
def jsReduce : List String → JsValue → Except Unit JsValue
  | [], acc => .ok acc
  | seg :: rest, acc =>
    if truthy acc then
      match propAccess acc seg with
      | .ok v => jsReduce rest v
      | .error e => .error e
    else jsReduce rest acc

/-- The final `undefined`-to-`null` step of `getValue`
(`if (result === undefined) return null`). -/
def nullify : JsValue → JsValue
  | .vUndefined => .vNull
  | v => v

/-- `ConfigService.getValue(key)` over a snapshot `cfg`
(config.service.ts lines 118-126): split the key on `.`/`:`, reduce with
`acc && acc[current]`, and turn `undefined` into `null`. -/
def getValue (key : String) (cfg : Section) : Except Unit JsValue :=
  match jsReduce (splitPath key) (.vObj cfg) with
  | .error e => .error e
  | .ok v => .ok (nullify v)

/-- Plain object-path resolution: every non-final step must pass through
an object that has the segment as a key. This is the specification-side
notion of a path whose segments all resolve, used to compare `getValue`
against the spec's description. -/
def objResolve : List String → JsValue → Option JsValue
  | [], v => some v
  | seg :: rest, .vObj fields =>
    (match alookup fields seg with
     | some w => objResolve rest w
     | none => none)
  | _ :: _, _ => none

/-- Comma-join a list of strings. -/
def joinComma : List String → String
  | [] => ""
  | [s] => s
  | s :: rest => s ++ "," ++ joinComma rest

/-- Escape backslash and double quote in a JSON string literal. -/
def escapeJson (s : String) : String :=
  String.mk (s.data.foldr
    (fun c acc => if c = '"' || c = '\\' then '\\' :: c :: acc else c :: acc) [])

mutual

/-- `JSON.stringify(v)`: the serialisation used by the string branch of
`mapOptionValues` when the configuration value is an object. Minimal
string escaping (backslash and double quote) covers the identifier-like
strings configuration data holds. -/
def jsonStringify : JsValue → String
  | .vStr s => "\"" ++ escapeJson s ++ "\""
  | .vNum n => intToString n
  | .vBool b => if b then "true" else "false"
  | .vNull => "null"
  | .vUndefined => "null"
  | .vObj fields => "\x7b" ++ joinComma (jsonFields fields) ++ "\x7d"

/-- The serialised `"key":value` pieces of an object, skipping
`undefined`-valued keys as `JSON.stringify` does. -/
def jsonFields : List (String × JsValue) → List String
  | [] => []
  | (k, v) :: rest =>
    match v with
    | .vUndefined => jsonFields rest
    | v => ("\"" ++ escapeJson k ++ "\":" ++ jsonStringify v) :: jsonFields rest

end

mutual

/-- One field update of `mapOptionValues` (config.service.ts lines
37-78): given the current options field value `ov` and the configuration
value `cv` found under the same key, compute the value written back into
the options object. The branch order mirrors the source exactly:
strict equality, `configValue == null`, `optionsValue == null`, then the
`typeof optionsValue` chain (string, boolean, number, object/object),
with every unmatched combination leaving the field untouched. -/
def coerceEntry (ov cv : JsValue) : JsValue :=
  if jsStrictEq ov cv then ov
  else if isNullish cv then .vNull
  else if isNullish ov then cv
  else
    match ov, cv with
    | .vStr _, .vStr s => .vStr s
    | .vStr _, .vNum n => .vStr (intToString n)
    | .vStr _, .vBool b => .vStr (if b then "true" else "false")
    | .vStr _, cv => .vStr (jsonStringify cv)
    | .vBool _, .vStr s => .vBool (["1", "true", "on"].contains (strToLower s))
    | .vBool _, .vBool b => .vBool b
    | .vBool _, .vNum n => .vBool (n == 1)
    | .vBool _, _ => .vBool false
    | .vNum _, cv => .vNum (jsNumberOr0 cv)
    | .vObj ofs, .vObj cfs => .vObj (mapOptionValues ofs cfs)
    | ov, _ => ov

/-- `mapOptionValues(options, configSection)` (config.service.ts lines
30-80): iterate over the keys of the options object; keys absent from
the configuration section (`hasOwnProperty` guard, line 33) are left
untouched, the rest are updated in place by `coerceEntry`. The embedding
returns the post-mutation value of the options object. -/
def mapOptionValues : List (String × JsValue) → List (String × JsValue) →
    List (String × JsValue)
  | [], _ => []
  | (k, ov) :: rest, cfgSec =>
    (k, match alookup cfgSec k with
        | none => ov
        | some cv => coerceEntry ov cv) :: mapOptionValues rest cfgSec

end

/-- The constant `OptionsSuffix = 'Options'` (config.service.ts line 27). -/
def OptionsSuffix : String := "Options"

/-- Lower-case the first character:
`normalizedKey[0].toLowerCase() + normalizedKey.substr(1)`. On the empty
string the source would throw (indexing `undefined`); class names are
nonempty identifiers, so the empty case never arises and is embedded as
the empty string. -/
def lowerFirst (s : String) : String :=
  match s.data with
  | [] => ""
  | c :: rest => String.mk (Char.toLower c :: rest)

/-- `ConfigService.getNormalizedKey(className)` (config.service.ts lines
152-161): strip a trailing `Options` suffix only when the name is
strictly longer than the suffix, then lower-case the first character. -/
def getNormalizedKey (className : String) : String :=
  let cs := className.data
  let suffix := OptionsSuffix.data
  let stripped :=
    if cs.length > suffix.length ∧ suffix.isSuffixOf cs then
      cs.take (cs.length - suffix.length)
    else cs
  lowerFirst (String.mk stripped)

/-- A cached per-provider fetch (one entry of the `fetchRequests` map):
`tok` is a fresh identity for the underlying `configProvider.load()`
subscription, `result` the value the shared, replayed observable
delivers to every subscriber of the cycle. -/
structure FetchEntry : Type where
  tok : Nat
  result : Except Unit Section

/-- A reference to a mutable options object: `tag` is the JavaScript
object identity, `val` the current field contents. In-place mutation
preserves `tag`. -/
structure ObjRef : Type where
  tag : Nat
  val : List (String × JsValue)

/-- The mutable fields of `ConfigService` (config.service.ts lines
89-95): the loading/completed flags, the cached snapshot, the
bound-options cache `optionsRecord`, the per-provider fetch cache
`fetchRequests`, and a counter supplying fresh fetch identities. -/
structure LoadState : Type where
  loading : Bool
  completed : Bool
  cachedConfig : Section
  optionsRecord : List (String × ObjRef)
  fetchRequests : List (String × FetchEntry)
  nextTok : Nat

/-- The state of a freshly constructed service: flags down, empty
snapshot, empty caches. -/
def initLoadState : LoadState :=
  { loading := false, completed := false, cachedConfig := [],
    optionsRecord := [], fetchRequests := [], nextTok := 0 }

/-- The constructor stores `configProviders.reverse()` into
`sortedConfigProviders` (config.service.ts line 108); providers are
identified by their `name`. -/
def sortedProviders (regNames : List String) : List String := regNames.reverse

/-- A status event pushed on `loadSubject` during a load cycle. -/
inductive LoadEvent : Type where
  | loading
  | loaded
deriving DecidableEq

/-- Everything one call of `loadInternal` produces: the post-call service
state, the status events pushed in order, the names of providers whose
`load()` was freshly invoked, and the value the returned observable
delivers (`none` when it completes without emitting, as `forkJoin` of an
empty provider list does). -/
structure LoadOutcome : Type where
  state : LoadState
  events : List LoadEvent
  invoked : List String
  emitted : Option (Except Unit Section)

/-- The result of the fetch fan-out phase of `loadInternal`. -/
structure FetchPhase : Type where
  cache : List (String × FetchEntry)
  results : List (Except Unit Section)
  invoked : List String
  nextTok : Nat

/-- The per-provider fetch setup (config.service.ts lines 182-197): for
each provider name in order, a fresh fetch is issued and cached when
`reload` is set or no cached fetch exists (`reload ||
!this.fetchRequests[loaderName]`), otherwise the cached fetch is reused.
`outcome n` is the value a fresh fetch of provider `n` delivers in this
cycle. -/
def fetchPhase (outcome : String → Except Unit Section) (reload : Bool) :
    List String → List (String × FetchEntry) → Nat → FetchPhase
  | [], cache, tok => ⟨cache, [], [], tok⟩
  | n :: rest, cache, tok =>
    match alookup cache n with
    | some e =>
      if reload then
        let e' : FetchEntry := ⟨tok, outcome n⟩
        let r := fetchPhase outcome reload rest (aset cache n e') (tok + 1)
        ⟨r.cache, e'.result :: r.results, n :: r.invoked, r.nextTok⟩
      else
        let r := fetchPhase outcome reload rest cache tok
        ⟨r.cache, e.result :: r.results, r.invoked, r.nextTok⟩
    | none =>
      let e' : FetchEntry := ⟨tok, outcome n⟩
      let r := fetchPhase outcome reload rest (aset cache n e') (tok + 1)
      ⟨r.cache, e'.result :: r.results, n :: r.invoked, r.nextTok⟩

/-- The fan-in of `forkJoin`: all fetches of the cycle must succeed,
and any failure fails the whole join. -/
def seqResults : List (Except Unit Section) → Except Unit (List Section)
  | [] => .ok []
  | .error e :: _ => .error e
  | .ok c :: rest =>
    match seqResults rest with
    | .ok cs => .ok (c :: cs)
    | .error e => .error e

/-- The shallow merge `{ ...mergedConfig, ...config }` (config.service.ts
line 203): keys of the right operand overwrite keys of the left, embedded
so that lookups in the result prefer `b`. -/
def mergeSections (a b : Section) : Section :=
  a.filter (fun p => (alookup b p.1).isNone) ++ b

/-- `ConfigService.loadInternal(reload)` (config.service.ts lines
163-232) as one state transition, with the asynchronous fetch results
supplied by the `outcome` oracle:
* completed fast path — return the cached snapshot untouched;
* otherwise raise the loading flag and push a `loading` event when no
  load is in progress;
* run the fetch fan-out against the `fetchRequests` cache;
* `forkJoin` of zero providers completes without emitting, leaving the
  state of the cycle as it stands;
* on joint success, fold the shallow merge over the results in provider
  (application) order, replace the snapshot, clear the bound-options
  cache, set completed, drop loading, and push a `loaded` event;
* on any failure, drop both flags and touch neither snapshot nor
  bound-options cache, pushing nothing. -/
def loadInternal (providers : List String)
    (outcome : String → Except Unit Section) (reload : Bool)
    (st : LoadState) : LoadOutcome :=
  if st.completed && !reload then
    ⟨st, [], [], some (.ok st.cachedConfig)⟩
  else
    let started : Bool := st.loading
    let st1 : LoadState :=
      if started then st else { st with loading := true, completed := false }
    let evs1 : List LoadEvent := if started then [] else [.loading]
    let fp := fetchPhase outcome reload providers st1.fetchRequests st1.nextTok
    let st2 : LoadState := { st1 with fetchRequests := fp.cache, nextTok := fp.nextTok }
    if fp.results.isEmpty then
      ⟨st2, evs1, fp.invoked, none⟩
    else
      match seqResults fp.results with
      | .ok configs =>
        let merged := configs.foldl mergeSections []
        let stOk : LoadState :=
          { st2 with
            cachedConfig := merged
            optionsRecord := []
            completed := true
            loading := false }
        ⟨stOk, evs1 ++ [.loaded], fp.invoked, some (.ok merged)⟩
      | .error e =>
        let stErr : LoadState := { st2 with completed := false, loading := false }
        ⟨stErr, evs1, fp.invoked, some (.error e)⟩

/-- The shared core of `ConfigService.map` after the memoization check
(config.service.ts lines 140-149): look the normalized key up in the
snapshot; when the result is `null` or not an object, hand the defaults
object back untouched; otherwise coerce it in place against the section
found and record it in the bound-options cache. The `getValue` error
branch is unreachable (`getValue` is total on object snapshots, see
`getValue_never_throws`) and also hands the defaults back. -/
def mapCore (st : LoadState) (normalizedKey : String) (optionsObj : ObjRef) :
    ObjRef × LoadState :=
  match getValue normalizedKey st.cachedConfig with
  | .ok (.vObj fields) =>
    let ret : ObjRef := ⟨optionsObj.tag, mapOptionValues optionsObj.val fields⟩
    (ret, { st with optionsRecord := aset st.optionsRecord normalizedKey ret })
  | _ => (optionsObj, st)

/-- `ConfigService.map(optionsClass)` (config.service.ts lines 128-150):
`optionsObj` is the instance the injector supplies for the class named
`className`. A cached object that is reference-identical (`===`, i.e.
same tag) to the supplied instance is returned as-is; a stale cached
object is evicted first; then `mapCore` runs. -/
def mapService (st : LoadState) (className : String) (optionsObj : ObjRef) :
    ObjRef × LoadState :=
  let normalizedKey := getNormalizedKey className
  match alookup st.optionsRecord normalizedKey with
  | some cached =>
    if cached.tag = optionsObj.tag then (cached, st)
    else mapCore { st with optionsRecord := aerase st.optionsRecord normalizedKey }
           normalizedKey optionsObj
  | none => mapCore st normalizedKey optionsObj

/-! ## Helper lemmas -/

theorem alookup_aset_self {α : Type} (l : List (String × α)) (key : String) (v : α) :
    alookup (aset l key v) key = some v := by
  induction l with
  | nil => simp [aset, alookup]
  | cons p rest ih =>
    obtain ⟨k, w⟩ := p
    by_cases h : k = key <;> simp [aset, alookup, h, ih]

theorem alookup_aset_ne {α : Type} (l : List (String × α)) (key k : String) (v : α)
    (h : k ≠ key) : alookup (aset l key v) k = alookup l k := by
  have h' : ¬(key = k) := fun hh => h hh.symm
  induction l with
  | nil => simp [aset, alookup, h']
  | cons p rest ih =>
    obtain ⟨k', w⟩ := p
    by_cases h1 : k' = key
    · subst h1
      simp [aset, alookup, h']
    · simp [aset, alookup, h1, ih]

theorem alookup_append {α : Type} (a b : List (String × α)) (k : String) :
    alookup (a ++ b) k =
      match alookup a k with
      | some v => some v
      | none => alookup b k := by
  induction a with
  | nil => simp [alookup]
  | cons p rest ih =>
    obtain ⟨k', w⟩ := p
    by_cases h : k' = k <;> simp [alookup, h, ih]

theorem alookup_filter_merge (a b : Section) (k : String) :
    alookup (a.filter fun p => (alookup b p.1).isNone) k =
      match alookup b k with
      | some _ => none
      | none => alookup a k := by
  induction a with
  | nil => cases h : alookup b k <;> simp [alookup]
  | cons p rest ih =>
    obtain ⟨k', w⟩ := p
    rw [List.filter_cons]
    cases hb : alookup b k' with
    | some bv =>
      simp only [hb, Option.isNone_some, Bool.false_eq_true, if_false]
      rw [ih]
      by_cases hk : k' = k
      · subst hk
        simp [alookup, hb]
      · cases hbk : alookup b k <;> simp [alookup, hbk, hk]
    | none =>
      simp only [hb, Option.isNone_none, if_true]
      by_cases hk : k' = k
      · subst hk
        simp [alookup, hb]
      · simp only [alookup, if_neg hk]
        rw [ih]

theorem alookup_mergeSections (a b : Section) (k : String) :
    alookup (mergeSections a b) k =
      match alookup b k with
      | some v => some v
      | none => alookup a k := by
  rw [mergeSections, alookup_append, alookup_filter_merge]
  cases hbk : alookup b k with
  | some v => simp
  | none => cases hak : alookup a k <;> simp [hbk]

/-- The last section applied in a left fold of shallow merges wins every
key it carries. -/
theorem alookup_foldl_merge_last (ss : List Section) (acc s : Section)
    (k : String) (v : JsValue) (h : alookup s k = some v) :
    alookup (List.foldl mergeSections acc (ss ++ [s])) k = some v := by
  simp only [List.foldl_append, List.foldl_cons, List.foldl_nil]
  simp [alookup_mergeSections, h]

theorem seqResults_map_ok (provs : List String)
    (outcome : String → Except Unit Section) (sec : String → Section)
    (h : ∀ n ∈ provs, outcome n = .ok (sec n)) :
    seqResults (provs.map outcome) = .ok (provs.map sec) := by
  induction provs with
  | nil => simp [seqResults]
  | cons n rest ih =>
    have hn : outcome n = .ok (sec n) := h n (List.mem_cons_self n rest)
    have hrest := ih (fun m hm => h m (List.mem_cons_of_mem n hm))
    simp [seqResults, hn, hrest]

theorem seqResults_map_error (provs : List String)
    (outcome : String → Except Unit Section)
    (h : ∃ n ∈ provs, outcome n = .error ()) :
    seqResults (provs.map outcome) = .error () := by
  induction provs with
  | nil => simp at h
  | cons n rest ih =>
    obtain ⟨m, hm, hme⟩ := h
    rcases List.mem_cons.mp hm with rfl | hmem
    · simp [seqResults, hme]
    · cases hn : outcome n with
      | error e => cases e; simp [seqResults, hn]
      | ok c => simp [seqResults, hn, ih ⟨m, hmem, hme⟩]

/-- `fetchPhase` leaves cache keys it is not asked about untouched. -/
theorem fetchPhase_frame (outcome : String → Except Unit Section) (reload : Bool)
    (provs : List String) (cache : List (String × FetchEntry)) (tok : Nat)
    (n : String) (hn : n ∉ provs) :
    alookup (fetchPhase outcome reload provs cache tok).cache n = alookup cache n := by
  induction provs generalizing cache tok with
  | nil => simp [fetchPhase]
  | cons m rest ih =>
    have hnm : n ≠ m := fun h => hn (h ▸ List.mem_cons_self m rest)
    have hnr : n ∉ rest := fun h => hn (List.mem_cons_of_mem m h)
    cases hc : alookup cache m with
    | some e =>
      cases reload with
      | false => simp [fetchPhase, hc, ih _ _ hnr]
      | true => simp [fetchPhase, hc, ih _ _ hnr, alookup_aset_ne _ _ _ _ hnm]
    | none => simp [fetchPhase, hc, ih _ _ hnr, alookup_aset_ne _ _ _ _ hnm]

/-- When every cached fetch stores the outcome of its provider name, the
results of the fan-out phase are exactly the per-provider outcomes, in
provider order. -/
theorem fetchPhase_results (outcome : String → Except Unit Section) (reload : Bool)
    (provs : List String) (cache : List (String × FetchEntry)) (tok : Nat)
    (hinv : ∀ n e, alookup cache n = some e → e.result = outcome n) :
    (fetchPhase outcome reload provs cache tok).results = provs.map outcome := by
  induction provs generalizing cache tok with
  | nil => simp [fetchPhase]
  | cons m rest ih =>
    have hinv' : ∀ n e,
        alookup (aset cache m ⟨tok, outcome m⟩) n = some e → e.result = outcome n := by
      intro n e he
      by_cases hnm : n = m
      · subst hnm
        rw [alookup_aset_self] at he
        cases he; rfl
      · rw [alookup_aset_ne _ _ _ _ hnm] at he
        exact hinv n e he
    cases hc : alookup cache m with
    | some e =>
      cases reload with
      | false => simp [fetchPhase, hc, ih _ _ hinv, hinv m e hc]
      | true => simp [fetchPhase, hc, ih _ _ hinv']
    | none => simp [fetchPhase, hc, ih _ _ hinv']

/-- With `reload` unset and every provider already cached, the fan-out
phase invokes nothing and leaves cache and token counter untouched. -/
theorem fetchPhase_all_cached (outcome : String → Except Unit Section)
    (provs : List String) (cache : List (String × FetchEntry)) (tok : Nat)
    (h : ∀ n ∈ provs, (alookup cache n).isSome) :
    (fetchPhase outcome false provs cache tok).invoked = [] ∧
    (fetchPhase outcome false provs cache tok).cache = cache ∧
    (fetchPhase outcome false provs cache tok).nextTok = tok := by
  induction provs with
  | nil => simp [fetchPhase]
  | cons m rest ih =>
    have hm := h m (List.mem_cons_self m rest)
    cases hc : alookup cache m with
    | none => simp [hc] at hm
    | some e =>
      have := ih (fun n hn => h n (List.mem_cons_of_mem m hn))
      simp [fetchPhase, hc, this.1, this.2.1, this.2.2]

/-- With `reload` unset, distinct provider names, and an empty-for-them
cache, the fan-out phase invokes every provider exactly once and caches
an entry for each. -/
theorem fetchPhase_fresh (outcome : String → Except Unit Section)
    (provs : List String) (cache : List (String × FetchEntry)) (tok : Nat)
    (hnd : provs.Nodup) (h : ∀ n ∈ provs, alookup cache n = none) :
    (fetchPhase outcome false provs cache tok).invoked = provs ∧
    ∀ n ∈ provs, (alookup (fetchPhase outcome false provs cache tok).cache n).isSome := by
  induction provs generalizing cache tok with
  | nil => simp [fetchPhase]
  | cons m rest ih =>
    have hm := h m (List.mem_cons_self m rest)
    have hmr : m ∉ rest := (List.nodup_cons.mp hnd).1
    have hnd' : rest.Nodup := (List.nodup_cons.mp hnd).2
    have hrest : ∀ n ∈ rest, alookup (aset cache m ⟨tok, outcome m⟩) n = none := by
      intro n hn
      have hne : n ≠ m := fun hh => hmr (hh ▸ hn)
      rw [alookup_aset_ne _ _ _ _ hne]
      exact h n (List.mem_cons_of_mem m hn)
    obtain ⟨hinv, hcac⟩ := ih (aset cache m ⟨tok, outcome m⟩) (tok + 1) hnd' hrest
    refine ⟨by simp [fetchPhase, hm, hinv], ?_⟩
    intro n hn
    rcases List.mem_cons.mp hn with rfl | hn'
    · rw [fetchPhase, hm]
      simp only []
      rw [fetchPhase_frame _ _ _ _ _ _ hmr, alookup_aset_self]
      rfl
    · rw [fetchPhase, hm]
      exact hcac n hn'

/-- With `reload` set, every provider is freshly invoked and the cache
entry of each distinct provider name is replaced by one carrying a token
at least as large as the cycle's starting counter. -/
theorem fetchPhase_reload (outcome : String → Except Unit Section)
    (provs : List String) (cache : List (String × FetchEntry)) (tok : Nat)
    (hnd : provs.Nodup) :
    (fetchPhase outcome true provs cache tok).invoked = provs ∧
    ∀ n ∈ provs, ∃ e, alookup (fetchPhase outcome true provs cache tok).cache n = some e ∧
      tok ≤ e.tok := by
  induction provs generalizing cache tok with
  | nil => simp [fetchPhase]
  | cons m rest ih =>
    have hmr : m ∉ rest := (List.nodup_cons.mp hnd).1
    have hnd' : rest.Nodup := (List.nodup_cons.mp hnd).2
    obtain ⟨hinv, hcac⟩ := ih (aset cache m ⟨tok, outcome m⟩) (tok + 1) hnd'
    constructor
    · cases hc : alookup cache m with
      | some e₀ => simp [fetchPhase, hc, hinv]
      | none => simp [fetchPhase, hc, hinv]
    · intro n hn
      have hcaches : (fetchPhase outcome true (m :: rest) cache tok).cache =
          (fetchPhase outcome true rest (aset cache m ⟨tok, outcome m⟩) (tok + 1)).cache := by
        cases hc : alookup cache m with
        | some e₀ => simp [fetchPhase, hc]
        | none => simp [fetchPhase, hc]
      rcases List.mem_cons.mp hn with rfl | hn'
      · refine ⟨⟨tok, outcome n⟩, ?_, Nat.le_refl tok⟩
        rw [hcaches, fetchPhase_frame _ _ _ _ _ _ hmr, alookup_aset_self]
      · obtain ⟨e, he, htok⟩ := hcac n hn'
        exact ⟨e, by rw [hcaches]; exact he, Nat.le_of_succ_le htok⟩

/-- A falsy accumulator is carried through the whole reduction. -/
theorem jsReduce_vUndefined (segs : List String) :
    jsReduce segs JsValue.vUndefined = .ok JsValue.vUndefined := by
  induction segs with
  | nil => rfl
  | cons seg rest ih => simp [jsReduce, truthy, ih]

/-- Property access never throws on a truthy value (only `null` and
`undefined` reads throw, and both are falsy). -/
theorem propAccess_ok_of_truthy (v : JsValue) (seg : String) (h : truthy v = true) :
    ∃ w, propAccess v seg = .ok w := by
  cases v with
  | vNull => simp [truthy] at h
  | vUndefined => simp [truthy] at h
  | vStr s => exact ⟨_, rfl⟩
  | vNum n => exact ⟨_, rfl⟩
  | vBool b => exact ⟨_, rfl⟩
  | vObj fields => exact ⟨_, rfl⟩

/-- The `acc && acc[current]` reduction never throws. -/
theorem jsReduce_ok (segs : List String) (acc : JsValue) :
    ∃ v, jsReduce segs acc = .ok v := by
  induction segs generalizing acc with
  | nil => exact ⟨acc, rfl⟩
  | cons seg rest ih =>
    cases htr : truthy acc with
    | false => simpa [jsReduce, htr] using ih acc
    | true =>
      obtain ⟨w, hw⟩ := propAccess_ok_of_truthy acc seg htr
      simpa [jsReduce, htr, hw] using ih w

/-- On a path that resolves through objects at every step, the reduction
delivers exactly the resolved value. -/
theorem jsReduce_objResolve (segs : List String) (start v : JsValue)
    (h : objResolve segs start = some v) : jsReduce segs start = .ok v := by
  induction segs generalizing start with
  | nil =>
    simp only [objResolve, Option.some.injEq] at h
    subst h; rfl
  | cons seg rest ih =>
    cases start with
    | vObj fields =>
      simp only [objResolve] at h
      cases ha : alookup fields seg with
      | none => rw [ha] at h; exact absurd h (by simp)
      | some w =>
        rw [ha] at h
        simp [jsReduce, truthy, propAccess, ha, ih w h]
    | vStr s => simp [objResolve] at h
    | vNum n => simp [objResolve] at h
    | vBool b => simp [objResolve] at h
    | vNull => simp [objResolve] at h
    | vUndefined => simp [objResolve] at h

/-- Splitting a reduction at a prefix. -/
theorem jsReduce_append (l1 l2 : List String) (acc w : JsValue)
    (h : jsReduce l1 acc = .ok w) :
    jsReduce (l1 ++ l2) acc = jsReduce l2 w := by
  induction l1 generalizing acc with
  | nil =>
    simp only [jsReduce, Except.ok.injEq] at h
    subst h; rfl
  | cons seg rest ih =>
    simp only [jsReduce] at h ⊢
    cases htr : truthy acc with
    | false =>
      rw [htr] at h
      simp only [Bool.false_eq_true, if_false] at h ⊢
      exact ih acc h
    | true =>
      rw [htr] at h
      simp only [if_true] at h ⊢
      cases hpa : propAccess acc seg with
      | error e => rw [hpa] at h; exact absurd h (by simp)
      | ok u =>
        rw [hpa] at h
        exact ih u h

/-- Running `loadInternal` off the fast path when the join fails:
both flags drop, fetch cache and token advance, snapshot and
bound-options cache stay, at most the initial `loading` event fires, and
the observable delivers the error. -/
theorem loadInternal_error_run (providers : List String)
    (outcome : String → Except Unit Section) (reload : Bool) (st : LoadState)
    (hguard : (st.completed && !reload) = false)
    (hne : (fetchPhase outcome reload providers st.fetchRequests st.nextTok).results.isEmpty = false)
    (herr : seqResults (fetchPhase outcome reload providers st.fetchRequests st.nextTok).results = .error ()) :
    loadInternal providers outcome reload st =
      ⟨{ st with
          loading := false
          completed := false
          fetchRequests := (fetchPhase outcome reload providers st.fetchRequests st.nextTok).cache
          nextTok := (fetchPhase outcome reload providers st.fetchRequests st.nextTok).nextTok },
       (if st.loading then [] else [LoadEvent.loading]),
       (fetchPhase outcome reload providers st.fetchRequests st.nextTok).invoked,
       some (.error ())⟩ := by
  rw [loadInternal]
  rw [if_neg (by simp [hguard])]
  cases hld : st.loading <;> simp [hld, hne, herr]

/-- Running `loadInternal` off the fast path when the join succeeds:
the merged snapshot replaces the cache, the bound-options cache is
cleared, `completed` rises, `loading` drops, and a `loaded` event ends
the cycle. -/
theorem loadInternal_ok_run (providers : List String)
    (outcome : String → Except Unit Section) (reload : Bool) (st : LoadState)
    (configs : List Section)
    (hguard : (st.completed && !reload) = false)
    (hne : (fetchPhase outcome reload providers st.fetchRequests st.nextTok).results.isEmpty = false)
    (hok : seqResults (fetchPhase outcome reload providers st.fetchRequests st.nextTok).results = .ok configs) :
    loadInternal providers outcome reload st =
      ⟨{ st with
          loading := false
          completed := true
          cachedConfig := configs.foldl mergeSections []
          optionsRecord := []
          fetchRequests := (fetchPhase outcome reload providers st.fetchRequests st.nextTok).cache
          nextTok := (fetchPhase outcome reload providers st.fetchRequests st.nextTok).nextTok },
       (if st.loading then [] else [LoadEvent.loading]) ++ [LoadEvent.loaded],
       (fetchPhase outcome reload providers st.fetchRequests st.nextTok).invoked,
       some (.ok (configs.foldl mergeSections []))⟩ := by
  rw [loadInternal]
  rw [if_neg (by simp [hguard])]
  cases hld : st.loading <;> simp [hld, hne, hok]

/-! ## Claim theorems -/

/-- C4: whenever a prior load has completed (`completed = true`), calling
`load` with `forceReload = false` returns the cached snapshot
immediately, invokes no provider fetch, mutates nothing, and emits no
status event. -/
theorem load_completed_fast_path (providers : List String)
    (outcome : String → Except Unit Section) (st : LoadState)
    (h : st.completed = true) :
    loadInternal providers outcome false st =
      ⟨st, [], [], some (.ok st.cachedConfig)⟩ := by
  simp [loadInternal, h]

/-- A service state in which a prior load has completed. -/
def loadedSampleState : LoadState :=
  { loading := false, completed := true,
    cachedConfig := [("host", JsValue.vStr "a")],
    optionsRecord := [], fetchRequests := [], nextTok := 3 }

theorem load_completed_fast_path_witness :
    loadedSampleState.completed = true ∧
    loadInternal ["p1", "p2"] (fun _ => .ok []) false loadedSampleState =
      ⟨loadedSampleState, [], [], some (.ok loadedSampleState.cachedConfig)⟩ :=
  ⟨rfl, load_completed_fast_path ["p1", "p2"] (fun _ => .ok []) loadedSampleState rfl⟩

/-- C8: the normalized section name strips a trailing `Options` suffix
only when the type name is strictly longer than the suffix, then
lower-cases the first character; the name `Options` itself is not
stripped, only lower-cased, and a name not ending in `Options` is only
lower-cased. -/
theorem normalized_key_strips_suffix_only_when_longer :
    getNormalizedKey "Options" = "options" ∧
    (∀ base : String, base.data ≠ [] →
      getNormalizedKey (base ++ "Options") = lowerFirst base) ∧
    (∀ name : String, ¬ ("Options".data <:+ name.data) →
      getNormalizedKey name = lowerFirst name) := by
  have htake : ∀ (l suf : List Char), (l ++ suf).take ((l ++ suf).length - suf.length) = l := by
    intro l suf
    have hn : (l ++ suf).length - suf.length = l.length := by
      simp only [List.length_append]
      omega
    rw [hn]
    exact List.take_left' rfl
  refine ⟨by decide, ?_, ?_⟩
  · intro base hb
    have hlen : 0 < base.data.length := List.length_pos.mpr hb
    simp only [getNormalizedKey, String.data_append, OptionsSuffix]
    split
    · rw [htake]
    · next hcond =>
      exfalso
      apply hcond
      constructor
      · simp only [List.length_append]
        omega
      · rw [List.isSuffixOf_iff_suffix]
        exact List.suffix_append _ _
  · intro name hns
    simp only [getNormalizedKey, OptionsSuffix]
    split
    · next hcond =>
      exfalso
      exact hns (by simpa using List.isSuffixOf_iff_suffix.mp hcond.2)
    · rfl

theorem normalized_key_witness :
    ("App".data ≠ [] ∧ getNormalizedKey ("App" ++ "Options") = lowerFirst "App") ∧
    (¬ ("Options".data <:+ "Config".data) ∧ getNormalizedKey "Config" = lowerFirst "Config") :=
  ⟨⟨by decide, normalized_key_strips_suffix_only_when_longer.2.1 "App" (by decide)⟩,
   ⟨by decide, normalized_key_strips_suffix_only_when_longer.2.2 "Config" (by decide)⟩⟩

/-- C3: the field-by-field coercion follows the stated precedence table;
a string-typed defaults field `x: "1"` bound against section `x: true`
becomes `x: "true"`; a boolean-typed defaults field `x: true` bound
against `x: "on"` stays `true`; a numeric defaults field `x: 0` bound
against the unparseable `x: "abc"` falls back to `0`; in general a
string configuration value coerces into a boolean field exactly when its
lower-casing is `"1"`, `"true"` or `"on"`, and a numerically unparseable
configuration value coerces into a numeric field as `0`. -/
theorem bind_coercion_precedence :
    mapOptionValues [("x", JsValue.vStr "1")] [("x", JsValue.vBool true)]
      = [("x", JsValue.vStr "true")] ∧
    mapOptionValues [("x", JsValue.vBool true)] [("x", JsValue.vStr "on")]
      = [("x", JsValue.vBool true)] ∧
    mapOptionValues [("x", JsValue.vNum 0)] [("x", JsValue.vStr "abc")]
      = [("x", JsValue.vNum 0)] ∧
    (∀ (b : Bool) (s : String), coerceEntry (JsValue.vBool b) (JsValue.vStr s)
      = JsValue.vBool (["1", "true", "on"].contains (strToLower s))) ∧
    (∀ (m : Int) (s : String), jsStringToNumber s = none →
      coerceEntry (JsValue.vNum m) (JsValue.vStr s) = JsValue.vNum 0) := by
  refine ⟨?_, ?_, ?_, ?_, ?_⟩
  · simp [mapOptionValues, coerceEntry, alookup, jsStrictEq, isNullish]
  · simp [mapOptionValues, coerceEntry, alookup, jsStrictEq, isNullish, strToLower]
  · simp [mapOptionValues, coerceEntry, alookup, jsStrictEq, isNullish, jsNumberOr0,
      jsStringToNumber, trimChars, isJsWs, digitsToNat]
  · intro b s
    simp [coerceEntry, jsStrictEq, isNullish]
  · intro m s hs
    simp [coerceEntry, jsStrictEq, isNullish, jsNumberOr0, hs]

theorem bind_coercion_precedence_witness :
    coerceEntry (JsValue.vBool false) (JsValue.vStr "TRUE") = JsValue.vBool true ∧
    (jsStringToNumber "zz" = none ∧
      coerceEntry (JsValue.vNum 7) (JsValue.vStr "zz") = JsValue.vNum 0) := by
  have h := bind_coercion_precedence
  refine ⟨?_, ?_, ?_⟩
  · rw [h.2.2.2.1 false "TRUE"]
    simp [strToLower]
  · simp [jsStringToNumber, trimChars, isJsWs, digitsToNat]
  · exact h.2.2.2.2 7 "zz" (by simp [jsStringToNumber, trimChars, isJsWs, digitsToNat])

/-- C9: when the normalized section name is absent from the snapshot or
resolves to a non-object, `map` returns the defaults object unmodified
(and leaves the state untouched); and the coercion pass touches only
fields whose key occurs in both the defaults object and the section — it
never adds section keys, and a defaults field absent from the section
keeps its value. (The hypothesis restricts to calls that are not served
from the bound-options cache, whose entries are reference-identical
copies of earlier results.) -/
theorem bind_frame_untouched_fields (st : LoadState) (cls : String) (obj : ObjRef)
    (hnc : alookup st.optionsRecord (getNormalizedKey cls) = none) :
    (∀ v, getValue (getNormalizedKey cls) st.cachedConfig = .ok v →
      isJsObject v = false → mapService st cls obj = (obj, st)) ∧
    (∀ (options cfgSec : List (String × JsValue)),
      (mapOptionValues options cfgSec).map Prod.fst = options.map Prod.fst) ∧
    (∀ (options cfgSec : List (String × JsValue)) (k : String),
      alookup cfgSec k = none →
      alookup (mapOptionValues options cfgSec) k = alookup options k) := by
  refine ⟨?_, ?_, ?_⟩
  · intro v hv hno
    cases v with
    | vObj fields => simp [isJsObject] at hno
    | vStr s => simp [mapService, hnc, mapCore, hv]
    | vNum n => simp [mapService, hnc, mapCore, hv]
    | vBool b => simp [mapService, hnc, mapCore, hv]
    | vNull => simp [mapService, hnc, mapCore, hv]
    | vUndefined => simp [mapService, hnc, mapCore, hv]
  · intro options cfgSec
    induction options with
    | nil => simp [mapOptionValues]
    | cons p rest ih =>
      obtain ⟨k', ov⟩ := p
      simp [mapOptionValues, ih]
  · intro options cfgSec k hk
    induction options with
    | nil => simp [mapOptionValues]
    | cons p rest ih =>
      obtain ⟨k', ov⟩ := p
      by_cases hkk : k' = k
      · subst hkk
        simp [mapOptionValues, alookup, hk]
      · simp [mapOptionValues, alookup, hkk, ih]

/-- A service state holding a snapshot whose `flag` key is a scalar. -/
def scalarSampleState : LoadState :=
  { loading := false, completed := true,
    cachedConfig := [("flag", JsValue.vStr "x")],
    optionsRecord := [], fetchRequests := [], nextTok := 0 }

theorem bind_frame_untouched_fields_witness :
    (alookup scalarSampleState.optionsRecord (getNormalizedKey "Flag") = none ∧
      mapService scalarSampleState "Flag" ⟨0, [("y", JsValue.vNum 1)]⟩
        = (⟨0, [("y", JsValue.vNum 1)]⟩, scalarSampleState)) ∧
    alookup (mapOptionValues [("y", JsValue.vNum 1)] [("z", JsValue.vNum 2)]) "y"
      = alookup [("y", JsValue.vNum 1)] "y" := by
  have h := bind_frame_untouched_fields scalarSampleState "Flag" ⟨0, [("y", JsValue.vNum 1)]⟩ rfl
  refine ⟨⟨rfl, ?_⟩, ?_⟩
  · exact h.1 (JsValue.vStr "x")
      (by simp [getValue, getNormalizedKey, OptionsSuffix, lowerFirst, splitPath, splitPathAux,
        jsReduce, truthy, propAccess, alookup, nullify, scalarSampleState])
      rfl
  · exact h.2.2 [("y", JsValue.vNum 1)] [("z", JsValue.vNum 2)] "y" (by simp [alookup])

/-- C10: a `map` call that reaches coercion returns an object
reference-identical to the supplied defaults instance (same identity
tag: the coercion mutates the defaults in place), stores that same
reference in the bound-options cache, and a later call supplied with the
identical instance is a memoization hit returning the identical object. -/
theorem bind_returns_defaults_reference (st : LoadState) (cls : String) (obj : ObjRef)
    (hmiss : ∀ cached, alookup st.optionsRecord (getNormalizedKey cls) = some cached →
      cached.tag ≠ obj.tag)
    (fields : List (String × JsValue))
    (hobj : getValue (getNormalizedKey cls) st.cachedConfig = .ok (JsValue.vObj fields)) :
    (mapService st cls obj).1.tag = obj.tag ∧
    (mapService st cls obj).1.val = mapOptionValues obj.val fields ∧
    alookup (mapService st cls obj).2.optionsRecord (getNormalizedKey cls)
      = some (mapService st cls obj).1 ∧
    (∀ obj2 : ObjRef, obj2.tag = obj.tag →
      mapService (mapService st cls obj).2 cls obj2
        = ((mapService st cls obj).1, (mapService st cls obj).2)) := by
  have hcore : ∀ st' : LoadState, st'.cachedConfig = st.cachedConfig →
      mapCore st' (getNormalizedKey cls) obj =
        (⟨obj.tag, mapOptionValues obj.val fields⟩,
         { st' with optionsRecord := (aset st'.optionsRecord (getNormalizedKey cls) ⟨obj.tag, mapOptionValues obj.val fields⟩) }) := by
    intro st' hcc
    rw [mapCore, hcc, hobj]
  have hmain : mapService st cls obj =
      (⟨obj.tag, mapOptionValues obj.val fields⟩,
       { st with optionsRecord := (aset (aerase st.optionsRecord (getNormalizedKey cls)) (getNormalizedKey cls) ⟨obj.tag, mapOptionValues obj.val fields⟩) }) ∨
      mapService st cls obj =
      (⟨obj.tag, mapOptionValues obj.val fields⟩,
       { st with optionsRecord := (aset st.optionsRecord (getNormalizedKey cls) ⟨obj.tag, mapOptionValues obj.val fields⟩) }) := by
    cases hc : alookup st.optionsRecord (getNormalizedKey cls) with
    | some cached =>
      left
      rw [mapService]
      simp only [hc, if_neg (hmiss cached hc)]
      exact hcore _ rfl
    | none =>
      right
      rw [mapService]
      simp only [hc]
      exact hcore _ rfl
  rcases hmain with hm | hm <;>
    (rw [hm]
     refine ⟨rfl, rfl, alookup_aset_self _ _ _, ?_⟩
     intro obj2 htag
     rw [mapService]
     simp only [alookup_aset_self]
     rw [if_pos (by rw [htag])])

/-- A service state holding a snapshot whose `opt` key is an object
section. -/
def objSampleState : LoadState :=
  { loading := false, completed := true,
    cachedConfig := [("opt", JsValue.vObj [("a", JsValue.vNum 3)])],
    optionsRecord := [], fetchRequests := [], nextTok := 0 }

theorem bind_returns_defaults_reference_witness :
    (mapService objSampleState "Opt" ⟨5, [("a", JsValue.vNum 0)]⟩).1.tag = 5 ∧
    (mapService objSampleState "Opt" ⟨5, [("a", JsValue.vNum 0)]⟩).1.val
      = mapOptionValues [("a", JsValue.vNum 0)] [("a", JsValue.vNum 3)] := by
  have h := bind_returns_defaults_reference objSampleState "Opt" ⟨5, [("a", JsValue.vNum 0)]⟩
    (by intro cached hc; simp [objSampleState, alookup] at hc) [("a", JsValue.vNum 3)]
    (by simp [getValue, getNormalizedKey, OptionsSuffix, lowerFirst, splitPath, splitPathAux,
      jsReduce, truthy, propAccess, alookup, nullify, objSampleState])
  exact ⟨h.1, h.2.1⟩

/-- C5 counterexample: the claim says `getValue` returns `null` as soon
as the value reached at an intermediate segment is not traversable, but
on the snapshot `a: false` the falsy intermediate `false` short-circuits
the `acc && acc[current]` reduction and is itself returned for the path
`a.b` — not `null`. -/
theorem getValue_falsy_intermediate_counterexample :
    getValue "a.b" [("a", JsValue.vBool false)] = .ok (JsValue.vBool false) ∧
    JsValue.vBool false ≠ JsValue.vNull := by
  constructor
  · simp [getValue, splitPath, splitPathAux, jsReduce, truthy, propAccess, alookup, nullify]
  · intro h
    cases h

/-- C5 (amended): `getValue` never raises an error and never returns
`undefined`; when every path segment resolves through object fields, the
raw value found at the terminal segment is returned; and when the
traversal, after resolving a prefix of segments through objects, reaches
an object lacking the next segment, the result is `null`. (The original
claim's further promise — `null` whenever an intermediate value is not
traversable — fails for falsy intermediates, which are returned as-is;
see the counterexample.) -/
theorem getValue_null_on_missing_amended (key : String) (cfg : Section) :
    (∃ v, getValue key cfg = .ok v ∧ v ≠ JsValue.vUndefined) ∧
    (∀ v, objResolve (splitPath key) (JsValue.vObj cfg) = some v →
      v ≠ JsValue.vUndefined → getValue key cfg = .ok v) ∧
    (∀ (segs1 : List String) (seg : String) (segs2 : List String)
      (fields : List (String × JsValue)),
      splitPath key = segs1 ++ seg :: segs2 →
      objResolve segs1 (JsValue.vObj cfg) = some (JsValue.vObj fields) →
      alookup fields seg = none →
      getValue key cfg = .ok JsValue.vNull) := by
  refine ⟨?_, ?_, ?_⟩
  · obtain ⟨v, hv⟩ := jsReduce_ok (splitPath key) (JsValue.vObj cfg)
    refine ⟨nullify v, ?_, ?_⟩
    · rw [getValue, hv]
    · cases v <;> simp [nullify]
  · intro v hres hnu
    have hred := jsReduce_objResolve (splitPath key) (JsValue.vObj cfg) v hres
    rw [getValue, hred]
    cases v <;> simp [nullify] at hnu ⊢
  · intro segs1 seg segs2 fields hsplit hres hmiss
    have hred1 := jsReduce_objResolve segs1 (JsValue.vObj cfg) (JsValue.vObj fields) hres
    have hstep : jsReduce (seg :: segs2) (JsValue.vObj fields) = .ok JsValue.vUndefined := by
      simp [jsReduce, truthy, propAccess, hmiss, jsReduce_vUndefined]
    rw [getValue, hsplit, jsReduce_append segs1 (seg :: segs2) _ _ hred1, hstep]
    rfl

theorem getValue_null_on_missing_witness :
    getValue "a.b.c" [("a", JsValue.vObj [("b", JsValue.vObj [("c", JsValue.vNum 5)])])]
      = .ok (JsValue.vNum 5) ∧
    getValue "a.x.c" [("a", JsValue.vObj [("b", JsValue.vObj [("c", JsValue.vNum 5)])])]
      = .ok JsValue.vNull := by
  constructor
  · exact (getValue_null_on_missing_amended "a.b.c"
      [("a", JsValue.vObj [("b", JsValue.vObj [("c", JsValue.vNum 5)])])]).2.1
      (JsValue.vNum 5)
      (by simp [objResolve, splitPath, splitPathAux, alookup])
      (by intro h; cases h)
  · exact (getValue_null_on_missing_amended "a.x.c"
      [("a", JsValue.vObj [("b", JsValue.vObj [("c", JsValue.vNum 5)])])]).2.2
      ["a"] "x" ["c"] [("b", JsValue.vObj [("c", JsValue.vNum 5)])]
      (by simp [splitPath, splitPathAux])
      (by simp [objResolve, alookup])
      (by simp [alookup])

/-- C2: a load cycle in which at least one provider's fetch fails fails
as a whole: the observable delivers the error, the loading and completed
flags are reset to `false`, the previously cached snapshot is untouched
and is what subsequent `getValue` calls observe, and no `loaded` status
event is emitted (at most the initial `loading` event of the cycle
fires). The hypotheses state that the call is not served by the
completed fast path and that cached fetches carry their provider's
outcome for this cycle (trivially true on a fresh cache). -/
theorem load_failure_preserves_snapshot (providers : List String)
    (outcome : String → Except Unit Section) (reload : Bool) (st : LoadState)
    (hfp : st.completed = false ∨ reload = true)
    (hcache : ∀ n e, alookup st.fetchRequests n = some e → e.result = outcome n)
    (hfail : ∃ n ∈ providers, outcome n = .error ()) :
    (loadInternal providers outcome reload st).emitted = some (.error ()) ∧
    (loadInternal providers outcome reload st).state.loading = false ∧
    (loadInternal providers outcome reload st).state.completed = false ∧
    (loadInternal providers outcome reload st).state.cachedConfig = st.cachedConfig ∧
    (loadInternal providers outcome reload st).state.optionsRecord = st.optionsRecord ∧
    LoadEvent.loaded ∉ (loadInternal providers outcome reload st).events ∧
    (∀ key, getValue key (loadInternal providers outcome reload st).state.cachedConfig
      = getValue key st.cachedConfig) := by
  have hguard : (st.completed && !reload) = false := by
    rcases hfp with h | h <;> simp [h]
  have hres : (fetchPhase outcome reload providers st.fetchRequests st.nextTok).results
      = providers.map outcome := fetchPhase_results _ _ _ _ _ hcache
  have hnil : providers ≠ [] := by
    obtain ⟨n, hn, -⟩ := hfail
    exact List.ne_nil_of_mem hn
  have hne : (fetchPhase outcome reload providers st.fetchRequests st.nextTok).results.isEmpty
      = false := by
    rw [hres]
    cases providers with
    | nil => exact absurd rfl hnil
    | cons a l => rfl
  have herr : seqResults (fetchPhase outcome reload providers st.fetchRequests st.nextTok).results
      = .error () := by
    rw [hres]
    exact seqResults_map_error _ _ hfail
  rw [loadInternal_error_run providers outcome reload st hguard hne herr]
  refine ⟨rfl, rfl, rfl, rfl, rfl, ?_, fun key => rfl⟩
  cases st.loading <;> simp

theorem load_failure_preserves_snapshot_witness :
    (loadInternal ["good", "bad"]
      (fun n => if n = "bad" then .error () else .ok [("k", JsValue.vNum 1)])
      false initLoadState).state.cachedConfig = initLoadState.cachedConfig ∧
    (loadInternal ["good", "bad"]
      (fun n => if n = "bad" then .error () else .ok [("k", JsValue.vNum 1)])
      false initLoadState).state.completed = false := by
  have h := load_failure_preserves_snapshot ["good", "bad"]
    (fun n => if n = "bad" then .error () else .ok [("k", JsValue.vNum 1)])
    false initLoadState
    (Or.inl rfl)
    (by intro n e he; simp [initLoadState, alookup] at he)
    ⟨"bad", by simp, by simp⟩
  exact ⟨h.2.2.2.1, h.2.2.1⟩

/-- C1 counterexample: with an empty provider list (all of whose fetches
vacuously succeed) the claim predicts that `load` produces the empty
shallow merge, but `forkJoin` of an empty array completes without
emitting: the observable delivers no snapshot at all, the completed flag
never rises and the loading flag stays up. -/
theorem load_empty_providers_emits_nothing :
    (loadInternal (sortedProviders []) (fun _ => .ok []) false initLoadState).emitted = none ∧
    (loadInternal (sortedProviders []) (fun _ => .ok []) false initLoadState).state.completed
      = false ∧
    (loadInternal (sortedProviders []) (fun _ => .ok []) false initLoadState).state.loading
      = true := by
  refine ⟨?_, ?_, ?_⟩ <;>
    simp [loadInternal, initLoadState, sortedProviders, fetchPhase]

/-- C1 (amended): for every NONEMPTY list of providers registered in
order `[P1, ..., Pn]` whose fetches all succeed, `load` emits and caches
the shallow merge of their sections applied in reverse registration
order `[Pn, ..., P1]` (a section applied later overwrites keys of one
applied earlier), so on a key collision the first-registered provider
`P1` wins over all later-registered ones. (With an empty provider list
the load observable completes without emitting any merge; see the
counterexample.) -/
theorem load_reverse_merge_first_registered_wins (regNames : List String)
    (outcome : String → Except Unit Section) (sec : String → Section)
    (hne : regNames ≠ [])
    (hok : ∀ n ∈ regNames, outcome n = .ok (sec n)) :
    (loadInternal (sortedProviders regNames) outcome false initLoadState).emitted
      = some (.ok ((regNames.reverse.map sec).foldl mergeSections [])) ∧
    (loadInternal (sortedProviders regNames) outcome false initLoadState).state.cachedConfig
      = (regNames.reverse.map sec).foldl mergeSections [] ∧
    (∀ p1 rest, regNames = p1 :: rest → ∀ k v, alookup (sec p1) k = some v →
      alookup (loadInternal (sortedProviders regNames) outcome false
        initLoadState).state.cachedConfig k = some v) := by
  have hokrev : ∀ n ∈ regNames.reverse, outcome n = .ok (sec n) := by
    intro n hn
    exact hok n (List.mem_reverse.mp hn)
  have hres : (fetchPhase outcome false (sortedProviders regNames)
      initLoadState.fetchRequests initLoadState.nextTok).results
      = (sortedProviders regNames).map outcome :=
    fetchPhase_results _ _ _ _ _ (by intro n e he; simp [initLoadState, alookup] at he)
  have hnerev : regNames.reverse ≠ [] := by
    intro h
    exact hne (by simpa using congrArg List.reverse h)
  have hne' : (fetchPhase outcome false (sortedProviders regNames)
      initLoadState.fetchRequests initLoadState.nextTok).results.isEmpty = false := by
    rw [hres, sortedProviders]
    cases hr : regNames.reverse with
    | nil => exact absurd hr hnerev
    | cons a l => rfl
  have hseq : seqResults (fetchPhase outcome false (sortedProviders regNames)
      initLoadState.fetchRequests initLoadState.nextTok).results
      = .ok (regNames.reverse.map sec) := by
    rw [hres, sortedProviders]
    exact seqResults_map_ok _ _ _ hokrev
  rw [loadInternal_ok_run (sortedProviders regNames) outcome false initLoadState
    (regNames.reverse.map sec) (by simp [initLoadState]) hne' hseq]
  refine ⟨rfl, rfl, ?_⟩
  intro p1 rest hreg k v hv
  subst hreg
  show alookup (((p1 :: rest).reverse.map sec).foldl mergeSections []) k = some v
  rw [List.reverse_cons, List.map_append]
  exact alookup_foldl_merge_last (rest.reverse.map sec) [] (sec p1) k v hv

theorem load_reverse_merge_witness :
    (loadInternal (sortedProviders ["P1", "P2"])
      (fun n => if n = "P1" then .ok [("k", JsValue.vStr "one"), ("a", JsValue.vNum 1)]
                else .ok [("k", JsValue.vStr "two"), ("b", JsValue.vNum 2)])
      false initLoadState).state.cachedConfig
      = (["P1", "P2"].reverse.map
          (fun n => if n = "P1" then [("k", JsValue.vStr "one"), ("a", JsValue.vNum 1)]
                    else [("k", JsValue.vStr "two"), ("b", JsValue.vNum 2)])).foldl
          mergeSections [] ∧
    alookup (loadInternal (sortedProviders ["P1", "P2"])
      (fun n => if n = "P1" then .ok [("k", JsValue.vStr "one"), ("a", JsValue.vNum 1)]
                else .ok [("k", JsValue.vStr "two"), ("b", JsValue.vNum 2)])
      false initLoadState).state.cachedConfig "k" = some (JsValue.vStr "one") := by
  have h := load_reverse_merge_first_registered_wins ["P1", "P2"]
    (fun n => if n = "P1" then .ok [("k", JsValue.vStr "one"), ("a", JsValue.vNum 1)]
              else .ok [("k", JsValue.vStr "two"), ("b", JsValue.vNum 2)])
    (fun n => if n = "P1" then [("k", JsValue.vStr "one"), ("a", JsValue.vNum 1)]
              else [("k", JsValue.vStr "two"), ("b", JsValue.vNum 2)])
    (by simp)
    (by intro n hn; simp only [List.mem_cons, List.not_mem_nil, or_false] at hn
        rcases hn with rfl | rfl <;> simp)
  refine ⟨h.2.1, ?_⟩
  exact h.2.2 "P1" ["P2"] rfl "k" (JsValue.vStr "one") (by simp [alookup])

/-- C6: every successful merge invalidates the bound-options cache — the
cache is empty right after the cycle — and a subsequent `map` call whose
normalized key resolves to an object section of the new snapshot returns
a freshly coerced object computed from that new snapshot (rather than
any previously cached object, all of which were dropped). -/
theorem merge_invalidates_bound_options_cache (regNames : List String)
    (outcome : String → Except Unit Section) (reload : Bool) (st : LoadState)
    (configs : List Section)
    (hfp : st.completed = false ∨ reload = true)
    (hne : (fetchPhase outcome reload (sortedProviders regNames)
      st.fetchRequests st.nextTok).results.isEmpty = false)
    (hseq : seqResults (fetchPhase outcome reload (sortedProviders regNames)
      st.fetchRequests st.nextTok).results = .ok configs) :
    (loadInternal (sortedProviders regNames) outcome reload st).state.optionsRecord = [] ∧
    (∀ (cls : String) (obj : ObjRef) (fields : List (String × JsValue)),
      getValue (getNormalizedKey cls)
        (loadInternal (sortedProviders regNames) outcome reload st).state.cachedConfig
        = .ok (JsValue.vObj fields) →
      (mapService (loadInternal (sortedProviders regNames) outcome reload st).state
        cls obj).1 = ⟨obj.tag, mapOptionValues obj.val fields⟩) := by
  have hguard : (st.completed && !reload) = false := by
    rcases hfp with h | h <;> simp [h]
  rw [loadInternal_ok_run (sortedProviders regNames) outcome reload st configs hguard hne hseq]
  refine ⟨rfl, ?_⟩
  intro cls obj fields hv
  simp only at hv
  rw [mapService]
  simp only [alookup]
  rw [mapCore]
  simp only at hv ⊢
  rw [hv]

/-- A service state with a stale bound-options cache entry and no
completed load. -/
def scalarSampleStale : LoadState :=
  { loading := false, completed := false,
    cachedConfig := [("opt", JsValue.vObj [("a", JsValue.vNum 9)])],
    optionsRecord := [("opt", ⟨1, [("a", JsValue.vNum 9)]⟩)],
    fetchRequests := [], nextTok := 0 }

theorem merge_invalidates_bound_options_cache_witness :
    (loadInternal (sortedProviders ["p"])
      (fun _ => .ok [("opt", JsValue.vObj [("a", JsValue.vNum 3)])])
      false scalarSampleStale).state.optionsRecord = [] ∧
    (mapService (loadInternal (sortedProviders ["p"])
      (fun _ => .ok [("opt", JsValue.vObj [("a", JsValue.vNum 3)])])
      false scalarSampleStale).state "Opt" ⟨9, [("a", JsValue.vNum 0)]⟩).1
      = ⟨9, mapOptionValues [("a", JsValue.vNum 0)] [("a", JsValue.vNum 3)]⟩ := by
  have h := merge_invalidates_bound_options_cache ["p"]
    (fun _ => .ok [("opt", JsValue.vObj [("a", JsValue.vNum 3)])])
    false scalarSampleStale [[("opt", JsValue.vObj [("a", JsValue.vNum 3)])]]
    (Or.inl rfl)
    (by simp [fetchPhase, sortedProviders, scalarSampleStale, alookup])
    (by simp [fetchPhase, sortedProviders, scalarSampleStale, alookup, seqResults])
  refine ⟨h.1, ?_⟩
  refine h.2 "Opt" ⟨9, [("a", JsValue.vNum 0)]⟩ [("a", JsValue.vNum 3)] ?_
  rw [loadInternal_ok_run (sortedProviders ["p"])
    (fun _ => .ok [("opt", JsValue.vObj [("a", JsValue.vNum 3)])]) false scalarSampleStale
    [[("opt", JsValue.vObj [("a", JsValue.vNum 3)])]]
    (by simp [scalarSampleStale])
    (by simp [fetchPhase, sortedProviders, scalarSampleStale, alookup])
    (by simp [fetchPhase, sortedProviders, scalarSampleStale, alookup, seqResults])]
  simp [getValue, getNormalizedKey, OptionsSuffix, lowerFirst, splitPath, splitPathAux,
    jsReduce, truthy, propAccess, alookup, nullify, mergeSections]

/-- C7: two load cycles entering the fetch phase in sequence before any
fetch resolves (the synchronous fan-out of two concurrent `load()`
calls) invoke each registered provider's fetch exactly once — the second
cycle reuses every in-flight fetch and invokes nothing — unless
`forceReload` is set, in which case every provider is freshly invoked
and the per-name cache entry is replaced by one carrying a new fetch
identity (token at least the cycle's fresh counter). -/
theorem concurrent_load_single_fetch_per_provider (names : List String)
    (outcome : String → Except Unit Section) (hnd : names.Nodup) :
    (fetchPhase outcome false names [] 0).invoked = names ∧
    (fetchPhase outcome false names
      (fetchPhase outcome false names [] 0).cache
      (fetchPhase outcome false names [] 0).nextTok).invoked = [] ∧
    (∀ n ∈ names,
      ((fetchPhase outcome false names [] 0).invoked ++
       (fetchPhase outcome false names
         (fetchPhase outcome false names [] 0).cache
         (fetchPhase outcome false names [] 0).nextTok).invoked).count n = 1) ∧
    (∀ (cache : List (String × FetchEntry)) (tok : Nat),
      (fetchPhase outcome true names cache tok).invoked = names ∧
      ∀ n ∈ names, ∃ e, alookup (fetchPhase outcome true names cache tok).cache n = some e ∧
        tok ≤ e.tok) := by
  obtain ⟨hinv1, hcac1⟩ := fetchPhase_fresh outcome names [] 0 hnd (fun n _ => rfl)
  obtain ⟨hinv2, -, -⟩ := fetchPhase_all_cached outcome names
    (fetchPhase outcome false names [] 0).cache
    (fetchPhase outcome false names [] 0).nextTok hcac1
  refine ⟨hinv1, hinv2, ?_, fun cache tok => fetchPhase_reload outcome names cache tok hnd⟩
  intro n hn
  rw [hinv1, hinv2, List.append_nil]
  exact List.count_eq_one_of_mem hnd hn

theorem concurrent_load_single_fetch_witness :
    ((fetchPhase (fun _ => .ok []) false ["a", "b"] [] 0).invoked ++
     (fetchPhase (fun _ => .ok []) false ["a", "b"]
       (fetchPhase (fun _ => .ok []) false ["a", "b"] [] 0).cache
       (fetchPhase (fun _ => .ok []) false ["a", "b"] [] 0).nextTok).invoked).count "a"
      = 1 :=
  (concurrent_load_single_fetch_per_provider ["a", "b"] (fun _ => .ok [])
    (by simp)).2.2.1 "a" (by simp)

end NgConfig
